import Mathlib

/-!
Verification development for the genesis state-construction pipeline and the
chain-head health poller of this repository.

The Go source is shallowly embedded in Lean:
pure functions become Lean functions, Go map mutation becomes
association-list update, content-addressed blockstore `put` is modelled as an
ideal hash (the identifier is an injective-by-construction encoding of the
object), the Go-map iteration in `MakeInitialStateTree` is made explicit by
passing the enumeration order as a list of (address, balance) pairs, and the
transaction-execution engine (an out-of-scope collaborator, specified only at
its boundary) is a parameter supplying `applyMessage`.
-/

set_option maxHeartbeats 1000000

namespace Lotus

abbrev Address := Nat

/-- Content identifiers are modelled as byte strings (lists of naturals);
`putObj` below derives them deterministically from object content. -/
abbrev Cid := List Nat

/-- types.Actor: code cid, head (state-root) cid, nonce, balance (BigInt). -/
structure Actor where
  Code : Nat
  Head : Cid
  Nonce : Nat
  Balance : Int
  deriving DecidableEq, Repr

/-- types.Ticket. -/
structure Ticket where
  VRFProof : List Nat
  VDFResult : List Nat
  VDFProof : List Nat
  deriving DecidableEq, Repr

/-- types.Signature. -/
structure Signature where
  SigType : Nat
  Data : List Nat
  deriving DecidableEq, Repr

/-- types.BlockHeader, with the fields MakeGenesisBlock populates. -/
structure BlockHeader where
  Miner : Address
  Tickets : List Ticket
  ElectionProof : List Nat
  Parents : List Cid
  Height : Nat
  ParentWeight : Int
  StateRoot : Cid
  Messages : Cid
  MessageReceipts : Cid
  BLSAggregate : Signature
  BlockSig : Signature
  Timestamp : Nat
  deriving DecidableEq, Repr

/-- The objects genesis construction stores in the blockstore: the empty
object, HAMT nodes (as key-value entry lists), actor state bodies, message
metadata, sharray nodes, block headers, and state-tree roots.  `extO` stands
for objects an external collaborator (the execution engine) may store. -/
inductive Obj where
  | emptyObject : Obj
  | amapO : List (Nat × Nat) → Obj
  | initStateO : Nat → Cid → Obj
  | marketStateO : Cid → Int → Obj
  | minerStateO : Int → Nat → Nat → Nat → Obj
  | msgMetaO : Cid → Cid → Obj
  | sharrayO : List Cid → Obj
  | headerO : BlockHeader → Obj
  | stateRootO : List (Nat × Actor) → Obj
  | extO : List Nat → Obj
  deriving DecidableEq, Repr

def encCid (c : Cid) : List Nat := c.length :: c

def encInt : Int → List Nat
  | .ofNat n => [0, n]
  | .negSucc n => [1, n]

def encList (f : α → List Nat) (xs : List α) : List Nat :=
  xs.length :: (xs.map f).flatten

def encPair (p : Nat × Nat) : List Nat := [p.1, p.2]

def encActor (a : Actor) : List Nat :=
  a.Code :: (encCid a.Head ++ (a.Nonce :: encInt a.Balance))

def encEntry (e : Nat × Actor) : List Nat := e.1 :: encActor e.2

def encTicket (t : Ticket) : List Nat :=
  encCid t.VRFProof ++ encCid t.VDFResult ++ encCid t.VDFProof

def encSig (s : Signature) : List Nat := s.SigType :: encCid s.Data

def encHeader (h : BlockHeader) : List Nat :=
  h.Miner :: (encList encTicket h.Tickets ++ encCid h.ElectionProof ++
    encList encCid h.Parents ++ (h.Height :: encInt h.ParentWeight) ++
    encCid h.StateRoot ++ encCid h.Messages ++ encCid h.MessageReceipts ++
    encSig h.BLSAggregate ++ encSig h.BlockSig ++ [h.Timestamp])

/-- Deterministic content identifier of an object (ideal content hash:
identical content always yields the identical identifier). -/
def encode : Obj → Cid
  | .emptyObject => [0]
  | .amapO es => 1 :: encList encPair es
  | .initStateO nid am => 2 :: (nid :: encCid am)
  | .marketStateO m t => 3 :: (encCid m ++ encInt t)
  | .minerStateO p o w pe => 4 :: (encInt p ++ [o, w, pe])
  | .msgMetaO b s => 5 :: (encCid b ++ encCid s)
  | .sharrayO cs => 6 :: encList encCid cs
  | .headerO h => 7 :: encHeader h
  | .stateRootO es => 8 :: encList encEntry es
  | .extO d => 9 :: d

/-- The content-addressed blockstore, newest writes first. -/
abbrev Blockstore := List (Cid × Obj)

def bsGet : Blockstore → Cid → Option Obj
  | [], _ => none
  | (c, o) :: rest, k => if k = c then some o else bsGet rest k

/-- cst.Put: store an object under its content identifier. -/
def putObj (bs : Blockstore) (o : Obj) : Cid × Blockstore :=
  (encode o, (encode o, o) :: bs)

/-- The persistent state map from addresses to actor records, as the list of
its entries (keys unique by construction: `setActor` overwrites in place). -/
abbrev StateTree := List (Nat × Actor)

/-- StateTree.SetActor: replace the record at an existing address, or append. -/
def setActor : StateTree → Nat → Actor → StateTree
  | [], a, act => [(a, act)]
  | (b, x) :: rest, a, act =>
    if a = b then (a, act) :: rest else (b, x) :: setActor rest a act

/-- StateTree.GetActor. -/
def getActor : StateTree → Nat → Option Actor
  | [], _ => none
  | (b, act) :: rest, a => if a = b then some act else getActor rest a

/-- Insertion step of key-sorting (used to make content roots canonical). -/
def insertByKey (p : Nat × β) : List (Nat × β) → List (Nat × β)
  | [] => [p]
  | q :: rest => if p.1 ≤ q.1 then p :: q :: rest else q :: insertByKey p rest

/-- Sort an entry list by key.  The HAMT invariant — the root identifier is a
pure function of the set of entries, not of insertion order — is modelled by
flushing through this canonical ordering. -/
def sortByKey : List (Nat × β) → List (Nat × β)
  | [] => []
  | p :: rest => insertByKey p (sortByKey rest)

/-- StateTree.Flush: the canonical content root of the state map. -/
def flushTree (t : StateTree) : Cid :=
  encode (.stateRootO (sortByKey t))

/-- Modelled from the spec: the well-known reserved addresses of the builtin
actors (actors package, not under src); per the spec they form a small closed
set of distinct reserved addresses below the ID-allocation offset 100. -/
def InitActorAddress : Address := 0

/-- Modelled from the spec: reserved network (reserve) actor address. -/
def NetworkAddress : Address := 1

/-- Modelled from the spec: reserved storage-market actor address. -/
def StorageMarketAddress : Address := 2

/-- Modelled from the spec: reserved burnt-funds actor address. -/
def BurntFundsAddress : Address := 99

/-- Modelled from the spec: builtin actor code identifiers (distinct tags). -/
def InitActorCodeCid : Nat := 10

/-- Modelled from the spec: account actor code identifier. -/
def AccountActorCodeCid : Nat := 11

/-- Modelled from the spec: storage-market actor code identifier. -/
def StorageMarketActorCodeCid : Nat := 12

/-- Modelled from the spec: storage-miner actor code identifier. -/
def StorageMinerCodeCid : Nat := 13

/-- Modelled from the spec: the fixed total supply constant
(build.TotalFilecoin in the denomination used by types.Fil; the build and
types packages are not under src — only its being a fixed constant matters). -/
def TotalFilecoinSupply : Int := 2000000000

/-- Modelled from the spec: build.SectorSize, a fixed constant. -/
def SectorSize : Nat := 1024

/-- Modelled from the spec: method number of CreateStorageMiner. -/
def SMACreateStorageMiner : Nat := 1

/-- Modelled from the spec: method number of UpdateStorage. -/
def SMAUpdateStorage : Nat := 2

/-- hamt Node.Set: overwrite the value at an existing key, or append. -/
def hamtSet : List (Nat × Nat) → Nat → Nat → List (Nat × Nat)
  | [], k, v => [(k, v)]
  | (k2, v2) :: rest, k, v =>
    if k = k2 then (k, v) :: rest else (k2, v2) :: hamtSet rest k v

/-- The loop of SetupInitActor: for i, a in addrs, amap.Set(a, 100 + i). -/
def buildAmap : Nat → List Address → List (Nat × Nat) → List (Nat × Nat)
  | _, [], m => m
  | i, a :: rest, m => buildAmap (i + 1) rest (hamtSet m a (100 + i))

/-- SetupInitActor: allocate sequential IDs from 100 for the given addresses,
flush the address map, store the InitActorState, and return the Init Actor. -/
def SetupInitActor (bs : Blockstore) (addrs : List Address) :
    Actor × Blockstore :=
  let entries := sortByKey (buildAmap 0 addrs [])
  let p1 := putObj bs (.amapO entries)
  let nextID := 100 + addrs.length
  let p2 := putObj p1.2 (.initStateO nextID p1.1)
  (⟨InitActorCodeCid, p2.1, 0, 0⟩, p2.2)

/-- SetupStorageMarketActor: empty miners map, zero total storage. -/
def SetupStorageMarketActor (bs : Blockstore) : Actor × Blockstore :=
  let p1 := putObj bs (.amapO [])
  let p2 := putObj p1.2 (.marketStateO p1.1 0)
  (⟨StorageMarketActorCodeCid, p2.1, 0, 0⟩, p2.2)

def emptyObjCid : Cid := encode .emptyObject

/-- An account actor with the given head and balance. -/
def accountActor (head : Cid) (v : Int) : Actor :=
  ⟨AccountActorCodeCid, head, 0, v⟩

/-- The netAmt loop: subtract every configured balance from the supply. -/
def subAllBalances : Int → List (Address × Int) → Int
  | acc, [] => acc
  | acc, p :: rest => subAllBalances (acc - p.2) rest

/-- The account loop: one account actor per configured balance. -/
def setAccountActors (e : Cid) : StateTree → List (Address × Int) → StateTree
  | t, [] => t
  | t, p :: rest => setAccountActors e (setActor t p.1 (accountActor e p.2)) rest

/-- MakeInitialStateTree.  The Go source enumerates the balances map three
times with range loops; Go map enumeration order is unspecified and
randomized, so the embedding takes the enumeration explicitly as a list of
(address, balance) pairs and uses it for all three loops. -/
def MakeInitialStateTree (bs : Blockstore) (actmap : List (Address × Int)) :
    StateTree × Blockstore :=
  let p0 := putObj bs .emptyObject
  let addrs := actmap.map Prod.fst
  let p1 := SetupInitActor p0.2 addrs
  let t1 := setActor [] InitActorAddress p1.1
  let p2 := SetupStorageMarketActor p1.2
  let t2 := setActor t1 StorageMarketAddress p2.1
  let netAmt : Int := subAllBalances TotalFilecoinSupply actmap
  let t3 := setActor t2 NetworkAddress (accountActor p0.1 netAmt)
  let t4 := setActor t3 BurntFundsAddress (accountActor p0.1 0)
  let t5 := setAccountActors p0.1 t4 actmap
  (t5, p2.2)

/-- The VM's view of the world: the state tree it executes over and the
blockstore backing the chain store. -/
structure VMState where
  tree : StateTree
  bs : Blockstore
  deriving DecidableEq, Repr

/-- The parameter payloads the genesis pipeline serializes with mustEnc;
SerializeParams is an injective encoding, modelled by carrying the payload
structurally. -/
inductive ParamsData where
  | createMiner (owner : Address) (worker : Address) (sectorSize : Nat) (peer : Nat)
  | updateStorage (delta : Int)
  deriving DecidableEq, Repr

/-- types.Message as built by doExec. -/
structure Message where
  To : Address
  From : Address
  Method : Nat
  Params : ParamsData
  GasLimit : Int
  GasPrice : Int
  Value : Int
  Nonce : Nat
  deriving DecidableEq, Repr

/-- The engine's reply: exit code, return bytes, diagnostic (ActorErr). -/
structure ApplyRet where
  ExitCode : Nat
  Return : List Nat
  ActorErr : List Nat
  deriving DecidableEq, Repr

/-- Modelled from the spec: the transaction-execution engine collaborator,
specified only at its boundary — applyMessage takes the current state and a
message and yields an exit code, return bytes and the successor state; `none`
models an internal engine failure. -/
structure Engine where
  applyMessage : VMState → Message → Option (ApplyRet × VMState)

/-- The construction's error taxonomy, mirroring the Go error wrapping. -/
inductive Err where
  | doExecGetActor (a : Address)
  | applyMsgFailed
  | methodCallFailed (exitCode : Nat) (diag : List Nat)
  | addrParse
  | indexOutOfRange
  | getMinerActorFailed (a : Address)
  | getMinerStateFailed
  | wrapCreateMiner (e : Err)
  | wrapUpdateStorage (e : Err)
  | wrapSetupMiners (e : Err)
  deriving DecidableEq, Repr

/-- Modelled from the spec: address.Address byte serialization (injective);
address.NewFromBytes inverts it and rejects malformed bytes. -/
def addrFromBytes : List Nat → Option Address
  | [a] => some a
  | _ => none

/-- GenMinerCfg.  MinerAddrs starts empty and is appended to by the genesis
setup (the struct comment in the source says so explicitly). -/
structure GenMinerCfg where
  Owners : List Address
  Workers : List Address
  MinerAddrs : List Address
  PeerIDs : List Nat
  deriving DecidableEq, Repr

/-- doExec: read the sender's nonce from the state tree, apply the message
through the engine with the fixed gas/value fields, and treat any non-zero
exit code as an error carrying the engine diagnostic.  Alongside the result
it reports the exit codes the engine produced (the run's exit trace). -/
def doExec (eng : Engine) (vmst : VMState) (toA fr method : Nat)
    (params : ParamsData) : Except Err (List Nat × VMState) × List Nat :=
  match getActor vmst.tree fr with
  | none => (.error (.doExecGetActor fr), [])
  | some act =>
    match eng.applyMessage vmst
        ⟨toA, fr, method, params, 1000000, 0, 0, act.Nonce⟩ with
    | none => (.error .applyMsgFailed, [])
    | some (ret, vmst2) =>
      if ret.ExitCode = 0 then (.ok (ret.Return, vmst2), [ret.ExitCode])
      else (.error (.methodCallFailed ret.ExitCode ret.ActorErr), [ret.ExitCode])

/-- One pass of the SetupStorageMiners loop, iterating over Workers with an
explicit index into Owners and PeerIDs (the Go code indexes them unchecked;
an out-of-range access is a crash, modelled as `indexOutOfRange`).  Returns
the loop outcome, the state reached, and the exit-code trace; on success the
outcome carries the updated config and, per miner, the address created and
the state as it stood immediately after that miner's power patch. -/
def minerLoop (eng : Engine) (owners pids : List Nat) :
    Nat → List Nat → VMState → GenMinerCfg →
    Except Err (GenMinerCfg × List (Address × VMState)) × VMState × List Nat
  | _, [], vmst, cfg => (.ok (cfg, []), vmst, [])
  | i, worker :: wrest, vmst, cfg =>
    match owners[i]?, pids[i]? with
    | some owner, some pid =>
      match doExec eng vmst StorageMarketAddress owner SMACreateStorageMiner
          (.createMiner owner worker SectorSize pid) with
      | (.error e, tr1) => (.error (.wrapCreateMiner e), vmst, tr1)
      | (.ok (rval, vmst1), tr1) =>
        match addrFromBytes rval with
        | none => (.error .addrParse, vmst1, tr1)
        | some maddr =>
          let cfg1 := { cfg with MinerAddrs := cfg.MinerAddrs ++ [maddr] }
          match doExec eng vmst1 StorageMarketAddress maddr SMAUpdateStorage
              (.updateStorage 5000) with
          | (.error e, tr2) => (.error (.wrapUpdateStorage e), vmst1, tr1 ++ tr2)
          | (.ok (_, vmst2), tr2) =>
            match getActor vmst2.tree maddr with
            | none => (.error (.getMinerActorFailed maddr), vmst2, tr1 ++ tr2)
            | some mact =>
              match bsGet vmst2.bs mact.Head with
              | some (.minerStateO _p o w pe) =>
                let p := putObj vmst2.bs (.minerStateO 5000 o w pe)
                let mact1 := { mact with Head := p.1 }
                let vmst3 : VMState := ⟨setActor vmst2.tree maddr mact1, p.2⟩
                match minerLoop eng owners pids (i + 1) wrest vmst3 cfg1 with
                | (.error e, vmst4, tr3) => (.error e, vmst4, tr1 ++ tr2 ++ tr3)
                | (.ok (cfg2, snaps), vmst4, tr3) =>
                  (.ok (cfg2, (maddr, vmst3) :: snaps), vmst4, tr1 ++ tr2 ++ tr3)
              | _ => (.error .getMinerStateFailed, vmst2, tr1 ++ tr2)
    | _, _ => (.error .indexOutOfRange, vmst, [])

/-- SetupStorageMiners: run the miner loop over the configuration and, on
success, flush the VM to obtain the canonical genesis state root. -/
def SetupStorageMiners (eng : Engine) (vmst : VMState) (cfg : GenMinerCfg) :
    Except Err (Cid × GenMinerCfg × List (Address × VMState)) ×
      VMState × List Nat :=
  match minerLoop eng cfg.Owners cfg.PeerIDs 0 cfg.Workers vmst cfg with
  | (.error e, vmst1, tr) => (.error e, vmst1, tr)
  | (.ok (cfg1, snaps), vmst1, tr) =>
    (.ok (flushTree vmst1.tree, cfg1, snaps), vmst1, tr)

/-- The fixed genesis ticket placeholder bytes. -/
def genesisTicket : Ticket := ⟨[1], [2], [3]⟩

/-- The fixed election-proof placeholder bytes. -/
def electionProofBytes : List Nat := [4]

/-- KTBLS signature type tag. -/
def KTBLS : Nat := 2

/-- The two fixed-type signature placeholders of the genesis header. -/
def blsAggregatePlaceholder : Signature := ⟨KTBLS, [5]⟩

/-- The block-signature placeholder of the genesis header. -/
def blockSigPlaceholder : Signature := ⟨KTBLS, [6]⟩

structure GenesisBootstrap where
  Genesis : BlockHeader
  deriving DecidableEq, Repr

/-- The VM MakeGenesisBlock hands to SetupStorageMiners: the initial state
tree together with the blockstore it was built over. -/
def initialVM (bs : Blockstore) (balances : List (Address × Int)) : VMState :=
  let p := MakeInitialStateTree bs balances
  ⟨p.1, p.2⟩

/-- MakeGenesisBlock: build the initial state tree, bootstrap the miners,
build two empty message-list roots, persist the message metadata and the
header, and return the genesis bootstrap.  The blockstore reached and the
exit-code trace are reported alongside the outcome. -/
def MakeGenesisBlock (eng : Engine) (bs : Blockstore)
    (balances : List (Address × Int)) (gmcfg : GenMinerCfg) (ts : Nat) :
    Except Err (GenesisBootstrap × GenMinerCfg) × Blockstore × List Nat :=
  match SetupStorageMiners eng (initialVM bs balances) gmcfg with
  | (.error e, vmst1, tr) => (.error (.wrapSetupMiners e), vmst1.bs, tr)
  | (.ok (stateroot, cfg1, _snaps), vmst1, tr) =>
    let p1 := putObj vmst1.bs (.sharrayO [])
    let emptyroot := p1.1
    let p2 := putObj p1.2 (.msgMetaO emptyroot emptyroot)
    let b : BlockHeader :=
      ⟨InitActorAddress, [genesisTicket], electionProofBytes, [], 0, 0,
        stateroot, p2.1, emptyroot, blsAggregatePlaceholder,
        blockSigPlaceholder, ts⟩
    let p3 := putObj p2.2 (.headerO b)
    (.ok (⟨b⟩, cfg1), p3.2, tr)

/-- No header object is stored in the blockstore. -/
def noHeaders (bs : Blockstore) : Prop :=
  ∀ c h, (c, Obj.headerO h) ∉ bs

/-- An engine that never stores block headers (the construction's own frame
assumption on its collaborator: headers are written only by block assembly). -/
def engNoHeaders (eng : Engine) : Prop :=
  ∀ vmst msg r vmst2, eng.applyMessage vmst msg = some (r, vmst2) →
    noHeaders vmst.bs → noHeaders vmst2.bs

/-- appendCIDsToWindow from the health poller: slide the head-CID window so
that appending the newly observed head never exceeds the threshold. -/
def appendCIDsToWindow (w : List (List Nat)) (c : List Nat) (t : Nat) :
    List (List Nat) :=
  let offset : Int := (w.length : Int) - (t : Int) + 1
  if 0 ≤ offset then w.drop offset.toNat ++ [c] else w ++ [c]

/-- Whether an Except is a success. -/
def exceptIsOk : Except ε α → Bool
  | .ok _ => true
  | .error _ => false

/-- The content identifier of the genesis block header a run returned, when
the run succeeded (the genesis block identifier). -/
def genesisHeaderCid
    (r : Except Err (GenesisBootstrap × GenMinerCfg) × Blockstore × List Nat) :
    Option Cid :=
  match r.1 with
  | .ok p => some (encode (.headerO p.1.Genesis))
  | .error _ => none

/-- The miner configuration as it stands after a successful run. -/
def cfgOut
    (r : Except Err (GenesisBootstrap × GenMinerCfg) × Blockstore × List Nat) :
    Option GenMinerCfg :=
  match r.1 with
  | .ok p => some p.2
  | .error _ => none

/-- A minimal well-behaved engine used to exercise the pipeline on concrete
inputs: CreateStorageMiner allocates a fresh address, stores a zero-power
miner state body and answers with the address bytes; UpdateStorage succeeds
without touching state. -/
def testEngineApply (st : VMState) (msg : Message) :
    Option (ApplyRet × VMState) :=
  match msg.Params with
  | .createMiner o w _ss pid =>
    let maddr := 1000 + st.tree.length
    let pr := putObj st.bs (.minerStateO 0 o w pid)
    some (⟨0, [maddr], []⟩,
      ⟨setActor st.tree maddr ⟨StorageMinerCodeCid, pr.1, 0, 0⟩, pr.2⟩)
  | .updateStorage _ => some (⟨0, [], []⟩, st)

def testEngine : Engine := ⟨testEngineApply⟩

/-- An engine that rejects every message with exit code 1. -/
def failEngineApply (st : VMState) (_msg : Message) :
    Option (ApplyRet × VMState) :=
  some (⟨1, [], [3]⟩, st)

def failEngine : Engine := ⟨failEngineApply⟩

/-- An engine that is never consulted (used for runs with no miners). -/
def nullEngine : Engine := ⟨fun _ _ => none⟩

/-- The ID-allocation loop result on fresh distinct addresses: address i
is assigned ID 100 + i. -/
def addrsWithIds : Nat → List Address → List (Nat × Nat)
  | _, [] => []
  | i, a :: rest => (a, 100 + i) :: addrsWithIds (i + 1) rest

/-- The balance of the actor recorded at an address (0 when absent). -/
def balanceAt (t : StateTree) (a : Address) : Int :=
  ((getActor t a).map Actor.Balance).getD 0

/-- A two-account balance configuration, in one enumeration order. -/
def enumA : List (Address × Int) := [(1, 10), (2, 20)]

/-- The same configuration, in the other enumeration order. -/
def enumB : List (Address × Int) := [(2, 20), (1, 10)]

/-- An empty miner configuration. -/
def cfgEmpty : GenMinerCfg := ⟨[], [], [], []⟩

/-- A single balance exceeding the total supply. -/
def overEnum : List (Address × Int) := [(5, TotalFilecoinSupply + 1)]

/-- A mismatched miner configuration: one owner, no workers, no peer IDs. -/
def cfgMismatch : GenMinerCfg := ⟨[5], [], [], []⟩

/-- A one-miner configuration with empty MinerAddrs. -/
def cfgOneMiner : GenMinerCfg := ⟨[5], [6], [], [9]⟩

/-! Basic lemmas about the state map and the blockstore. -/

theorem getActor_setActor_self (t : StateTree) (a : Nat) (act : Actor) :
    getActor (setActor t a act) a = some act := by
  induction t with
  | nil => simp [setActor, getActor]
  | cons q rest ih =>
    by_cases h : a = q.1
    · simp [setActor, getActor, h]
    · simp [setActor, getActor, h, ih]

theorem getActor_setActor_ne (t : StateTree) (a b : Nat) (act : Actor)
    (h : a ≠ b) : getActor (setActor t b act) a = getActor t a := by
  induction t with
  | nil => simp [setActor, getActor, h]
  | cons q rest ih =>
    by_cases h2 : b = q.1
    · subst h2
      simp [setActor, getActor, h]
    · by_cases h3 : a = q.1
      · simp [setActor, getActor, h2, h3]
      · simp [setActor, getActor, h2, h3, ih]

theorem bsGet_head (bs : Blockstore) (c : Cid) (o : Obj) :
    bsGet ((c, o) :: bs) c = some o := by
  simp [bsGet]

theorem bsGet_ne (bs : Blockstore) (c k : Cid) (o : Obj) (h : k ≠ c) :
    bsGet ((c, o) :: bs) k = bsGet bs k := by
  simp [bsGet, h]

theorem subAllBalances_eq (l : List (Address × Int)) (acc : Int) :
    subAllBalances acc l = acc - (l.map Prod.snd).sum := by
  induction l generalizing acc with
  | nil => simp [subAllBalances]
  | cons p rest ih =>
    simp only [subAllBalances, ih, List.map_cons, List.sum_cons]
    ring

theorem getActor_setAccountActors_not_mem (e : Cid) (l : List (Address × Int))
    (t : StateTree) (a : Nat) (h : a ∉ l.map Prod.fst) :
    getActor (setAccountActors e t l) a = getActor t a := by
  induction l generalizing t with
  | nil => rfl
  | cons p rest ih =>
    simp only [List.map_cons, List.mem_cons, not_or] at h
    rw [setAccountActors, ih _ h.2, getActor_setActor_ne _ _ _ _ h.1]

theorem getActor_setAccountActors_mem (e : Cid) (l : List (Address × Int))
    (t : StateTree) (hnd : (l.map Prod.fst).Nodup) :
    ∀ p ∈ l, getActor (setAccountActors e t l) p.1 = some (accountActor e p.2) := by
  induction l generalizing t with
  | nil => intro p hp; cases hp
  | cons q rest ih =>
    simp only [List.map_cons, List.nodup_cons] at hnd
    intro p hp
    rcases List.mem_cons.mp hp with h | h
    · subst h
      rw [setAccountActors,
        getActor_setAccountActors_not_mem _ _ _ _ hnd.1,
        getActor_setActor_self]
    · exact ih _ hnd.2 p h

/-! Lemmas about the init actor's address-map construction. -/

theorem hamtSet_not_mem (m : List (Nat × Nat)) (k v : Nat)
    (h : k ∉ m.map Prod.fst) : hamtSet m k v = m ++ [(k, v)] := by
  induction m with
  | nil => rfl
  | cons q rest ih =>
    simp only [List.map_cons, List.mem_cons, not_or] at h
    simp [hamtSet, h.1, ih h.2]

theorem addrsWithIds_map_fst (addrs : List Address) (i : Nat) :
    (addrsWithIds i addrs).map Prod.fst = addrs := by
  induction addrs generalizing i with
  | nil => rfl
  | cons a rest ih => simp [addrsWithIds, ih]

theorem addrsWithIds_length (addrs : List Address) (i : Nat) :
    (addrsWithIds i addrs).length = addrs.length := by
  have := congrArg List.length (addrsWithIds_map_fst addrs i)
  simpa using this

theorem buildAmap_eq (addrs : List Address) (i : Nat) (m : List (Nat × Nat))
    (hfresh : ∀ a ∈ addrs, a ∉ m.map Prod.fst) (hnd : addrs.Nodup) :
    buildAmap i addrs m = m ++ addrsWithIds i addrs := by
  induction addrs generalizing i m with
  | nil => simp [buildAmap, addrsWithIds]
  | cons a rest ih =>
    simp only [List.nodup_cons] at hnd
    rw [buildAmap, hamtSet_not_mem _ _ _ (hfresh a (List.mem_cons_self a rest)),
      ih (i + 1) _ ?_ hnd.2]
    · simp [addrsWithIds]
    · intro b hb
      simp only [List.map_append, List.mem_append, List.map_cons, not_or]
      refine ⟨hfresh b (List.mem_cons_of_mem _ hb), ?_⟩
      simp only [List.map_nil, List.mem_singleton]
      intro hba
      exact hnd.1 (hba ▸ hb)

theorem addrsWithIds_mem_get (addrs : List Address) (i : Nat)
    (j : Fin addrs.length) :
    (addrs.get j, 100 + i + (j : Nat)) ∈ addrsWithIds i addrs := by
  induction addrs generalizing i with
  | nil => exact absurd j.isLt (by simp)
  | cons a rest ih =>
    rcases j with ⟨jv, hj⟩
    cases jv with
    | zero => simp [addrsWithIds, List.get]
    | succ n =>
      have hn : n < rest.length := by
        simpa using Nat.lt_of_succ_lt_succ hj
      have := ih (i + 1) ⟨n, hn⟩
      simp only [addrsWithIds, List.mem_cons]
      right
      have harith : 100 + (i + 1) + n = 100 + i + (n + 1) := by omega
      simpa [List.get, harith] using this

theorem insertByKey_perm (p : Nat × β) (l : List (Nat × β)) :
    List.Perm (insertByKey p l) (p :: l) := by
  induction l with
  | nil => simp [insertByKey]
  | cons q rest ih =>
    by_cases h : p.1 ≤ q.1
    · simp [insertByKey, h]
    · rw [insertByKey, if_neg h]
      exact (ih.cons q).trans (List.Perm.swap p q rest)

theorem sortByKey_perm (l : List (Nat × β)) :
    List.Perm (sortByKey l) l := by
  induction l with
  | nil => simp [sortByKey]
  | cons p rest ih =>
    exact (insertByKey_perm p (sortByKey rest)).trans (ih.cons p)

/-! Lemmas tracking that only block assembly ever persists a header. -/

theorem noHeaders_nil : noHeaders ([] : Blockstore) := by
  intro c h hmem
  cases hmem

theorem noHeaders_putObj (bs : Blockstore) (o : Obj) (h : noHeaders bs)
    (ho : ∀ hd, o ≠ Obj.headerO hd) : noHeaders (putObj bs o).2 := by
  intro c hd hmem
  rcases List.mem_cons.mp hmem with he | ht
  · exact ho hd (congrArg Prod.snd he).symm
  · exact h c hd ht

theorem noHeaders_SetupInitActor (bs : Blockstore) (addrs : List Address)
    (h : noHeaders bs) : noHeaders (SetupInitActor bs addrs).2 := by
  simp only [SetupInitActor]
  exact noHeaders_putObj _ _ (noHeaders_putObj _ _ h fun hd he => Obj.noConfusion he)
    fun hd he => Obj.noConfusion he

theorem noHeaders_SetupStorageMarketActor (bs : Blockstore) (h : noHeaders bs) :
    noHeaders (SetupStorageMarketActor bs).2 := by
  simp only [SetupStorageMarketActor]
  exact noHeaders_putObj _ _ (noHeaders_putObj _ _ h fun hd he => Obj.noConfusion he)
    fun hd he => Obj.noConfusion he

theorem noHeaders_MakeInitialStateTree (bs : Blockstore)
    (actmap : List (Address × Int)) (h : noHeaders bs) :
    noHeaders (MakeInitialStateTree bs actmap).2 := by
  simp only [MakeInitialStateTree]
  exact noHeaders_SetupStorageMarketActor _ (noHeaders_SetupInitActor _ _
    (noHeaders_putObj _ _ h fun hd he => Obj.noConfusion he))

theorem doExec_noHeaders (eng : Engine) (vmst : VMState) (toA fr m : Nat)
    (p : ParamsData) (r : List Nat) (vmst2 : VMState) (tr : List Nat)
    (heng : engNoHeaders eng) (h : noHeaders vmst.bs)
    (heq : doExec eng vmst toA fr m p = (.ok (r, vmst2), tr)) :
    noHeaders vmst2.bs := by
  unfold doExec at heq
  split at heq
  · simp at heq
  · rename_i act hact
    split at heq
    · simp at heq
    · rename_i ret vmst3 happ
      split at heq
      · simp only [Prod.mk.injEq, Except.ok.injEq] at heq
        exact heq.1.2 ▸ heng _ _ _ _ happ h
      · simp at heq

/-! Lemmas about the exit-code trace of doExec and the miner loop. -/

theorem doExec_ok_trace (eng : Engine) (vmst : VMState) (toA fr m : Nat)
    (p : ParamsData) (x : List Nat × VMState) (tr : List Nat)
    (heq : doExec eng vmst toA fr m p = (.ok x, tr)) : tr = [0] := by
  unfold doExec at heq
  split at heq
  · simp at heq
  · split at heq
    · simp at heq
    · rename_i ret vmst3 happ
      split at heq
      · rename_i hz
        have := (Prod.mk.injEq _ _ _ _).mp heq
        rw [← this.2, hz]
      · simp at heq

theorem doExec_err_of_nonzero (eng : Engine) (vmst : VMState) (toA fr m : Nat)
    (p : ParamsData) (res : Except Err (List Nat × VMState)) (tr : List Nat)
    (ec : Nat) (heq : doExec eng vmst toA fr m p = (res, tr))
    (hmem : ec ∈ tr) (hne : ec ≠ 0) :
    ∃ diag, res = .error (.methodCallFailed ec diag) := by
  unfold doExec at heq
  split at heq
  · rw [← (Prod.mk.injEq _ _ _ _).mp heq |>.2] at hmem
    cases hmem
  · split at heq
    · rw [← (Prod.mk.injEq _ _ _ _).mp heq |>.2] at hmem
      cases hmem
    · rename_i ret vmst3 happ
      split at heq
      · rename_i hz
        obtain ⟨h1, h2⟩ := (Prod.mk.injEq _ _ _ _).mp heq
        rw [← h2] at hmem
        rcases List.mem_singleton.mp hmem with rfl
        exact absurd hz hne
      · rename_i hz
        obtain ⟨h1, h2⟩ := (Prod.mk.injEq _ _ _ _).mp heq
        rw [← h2] at hmem
        rcases List.mem_singleton.mp hmem with rfl
        exact ⟨ret.ActorErr, h1.symm⟩

theorem minerLoop_noHeaders (eng : Engine) (owners pids : List Nat)
    (ws : List Nat) (i : Nat) (vmst : VMState) (cfg : GenMinerCfg)
    (res : Except Err (GenMinerCfg × List (Address × VMState)))
    (vmstF : VMState) (tr : List Nat) (heng : engNoHeaders eng)
    (h : noHeaders vmst.bs)
    (heq : minerLoop eng owners pids i ws vmst cfg = (res, vmstF, tr)) :
    noHeaders vmstF.bs := by
  revert h heq
  induction ws generalizing i vmst cfg res vmstF tr with
  | nil =>
    intro h heq
    rw [minerLoop] at heq
    injection heq with h1 h2
    injection h2 with h2 h3
    exact h2 ▸ h
  | cons worker wrest ih =>
    intro h heq
    simp only [minerLoop] at heq
    split at heq
    · rename_i owner pid hown hpid
      split at heq
      · injection heq with h1 h2
        injection h2 with h2 h3
        exact h2 ▸ h
      · rename_i rval vmst1 tr1 hd1
        have h1 : noHeaders vmst1.bs := doExec_noHeaders _ _ _ _ _ _ _ _ _ heng h hd1
        split at heq
        · injection heq with h1e h2
          injection h2 with h2 h3
          exact h2 ▸ h1
        · rename_i maddr hmaddr
          split at heq
          · injection heq with h1e h2
            injection h2 with h2 h3
            exact h2 ▸ h1
          · rename_i vmst2 tr2 hd2
            have h2n : noHeaders vmst2.bs :=
              doExec_noHeaders _ _ _ _ _ _ _ _ _ heng h1 hd2
            split at heq
            · injection heq with h1e h2
              injection h2 with h2 h3
              exact h2 ▸ h2n
            · rename_i mact hmact
              split at heq
              · rename_i _p o w pe hbs
                have h3n : noHeaders
                    (putObj vmst2.bs (.minerStateO 5000 o w pe)).2 :=
                  noHeaders_putObj _ _ h2n fun hd he => Obj.noConfusion he
                split at heq
                · rename_i e vmst4 tr3 hrec
                  injection heq with h1e h2
                  injection h2 with h2 h3
                  exact h2 ▸ ih _ _ _ _ _ _ h3n hrec
                · rename_i cfg2 snaps vmst4 tr3 hrec
                  injection heq with h1e h2
                  injection h2 with h2 h3
                  exact h2 ▸ ih _ _ _ _ _ _ h3n hrec
              · injection heq with h1e h2
                injection h2 with h2 h3
                exact h2 ▸ h2n
    · injection heq with h1 h2
      injection h2 with h2 h3
      exact h2 ▸ h

theorem minerLoop_trace (eng : Engine) (owners pids : List Nat)
    (ws : List Nat) (i : Nat) (vmst : VMState) (cfg : GenMinerCfg)
    (res : Except Err (GenMinerCfg × List (Address × VMState)))
    (vmstF : VMState) (tr : List Nat)
    (heq : minerLoop eng owners pids i ws vmst cfg = (res, vmstF, tr))
    (htr : ∃ ec ∈ tr, ec ≠ 0) :
    ∃ ec diag, ec ≠ 0 ∧
      (res = .error (.wrapCreateMiner (.methodCallFailed ec diag)) ∨
       res = .error (.wrapUpdateStorage (.methodCallFailed ec diag))) := by
  revert heq htr
  induction ws generalizing i vmst cfg res vmstF tr with
  | nil =>
    intro heq htr
    rw [minerLoop] at heq
    injection heq with h1 h2
    injection h2 with h2 h3
    obtain ⟨ec, hmem, hne⟩ := htr
    rw [← h3] at hmem
    cases hmem
  | cons worker wrest ih =>
    intro heq htr
    obtain ⟨ec, hmem, hne⟩ := htr
    simp only [minerLoop] at heq
    split at heq
    · rename_i owner pid hown hpid
      split at heq
      · rename_i e tr1 hd1
        injection heq with h1 h2
        injection h2 with h2 h3
        rw [← h3] at hmem
        obtain ⟨diag, hdg⟩ :=
          doExec_err_of_nonzero _ _ _ _ _ _ _ _ _ hd1 hmem hne
        injection hdg with hdg
        exact ⟨ec, diag, hne, Or.inl (by rw [← h1, hdg])⟩
      · rename_i rval vmst1 tr1 hd1
        have htr1 : tr1 = [0] := doExec_ok_trace _ _ _ _ _ _ _ _ hd1
        split at heq
        · injection heq with h1 h2
          injection h2 with h2 h3
          rw [← h3, htr1] at hmem
          rcases List.mem_singleton.mp hmem with rfl
          exact absurd rfl hne
        · rename_i maddr hmaddr
          split at heq
          · rename_i e tr2 hd2
            injection heq with h1 h2
            injection h2 with h2 h3
            rw [← h3] at hmem
            rcases List.mem_append.mp hmem with hm | hm
            · rw [htr1] at hm
              rcases List.mem_singleton.mp hm with rfl
              exact absurd rfl hne
            · obtain ⟨diag, hdg⟩ :=
                doExec_err_of_nonzero _ _ _ _ _ _ _ _ _ hd2 hm hne
              injection hdg with hdg
              exact ⟨ec, diag, hne, Or.inr (by rw [← h1, hdg])⟩
          · rename_i vmst2 tr2 hd2
            have htr2 : tr2 = [0] := doExec_ok_trace _ _ _ _ _ _ _ _ hd2
            have hzero : ∀ e2 ∈ tr1 ++ tr2, e2 = 0 := by
              intro e2 he2
              rcases List.mem_append.mp he2 with hm | hm
              · rw [htr1] at hm
                exact List.mem_singleton.mp hm
              · rw [htr2] at hm
                exact List.mem_singleton.mp hm
            split at heq
            · injection heq with h1 h2
              injection h2 with h2 h3
              rw [← h3] at hmem
              exact absurd (hzero ec hmem) hne
            · rename_i mact hmact
              split at heq
              · rename_i _p o w pe hbs
                split at heq
                · rename_i e vmst4 tr3 hrec
                  injection heq with h1 h2
                  injection h2 with h2 h3
                  rw [← h3] at hmem
                  rcases List.mem_append.mp hmem with hm | hm
                  · exact absurd (hzero ec hm) hne
                  · obtain ⟨ec2, diag, hne2, hcase⟩ :=
                      ih _ _ _ _ _ _ hrec ⟨ec, hm, hne⟩
                    refine ⟨ec2, diag, hne2, ?_⟩
                    rw [← h1]
                    exact hcase
                · rename_i cfg2 snaps vmst4 tr3 hrec
                  injection heq with h1 h2
                  injection h2 with h2 h3
                  rw [← h3] at hmem
                  rcases List.mem_append.mp hmem with hm | hm
                  · exact absurd (hzero ec hm) hne
                  · obtain ⟨ec2, diag, hne2, hcase⟩ :=
                      ih _ _ _ _ _ _ hrec ⟨ec, hm, hne⟩
                    rcases hcase with hc | hc <;> exact absurd hc (by simp)
              · injection heq with h1 h2
                injection h2 with h2 h3
                rw [← h3] at hmem
                exact absurd (hzero ec hmem) hne
    · injection heq with h1 h2
      injection h2 with h2 h3
      rw [← h3] at hmem
      cases hmem

theorem minerLoop_snaps_power (eng : Engine) (owners pids : List Nat)
    (ws : List Nat) (i : Nat) (vmst : VMState) (cfg cfg2 : GenMinerCfg)
    (snaps : List (Address × VMState)) (vmstF : VMState) (tr : List Nat)
    (heq : minerLoop eng owners pids i ws vmst cfg =
      (.ok (cfg2, snaps), vmstF, tr)) :
    ∀ ms ∈ snaps, ∃ act o w pe,
      getActor ms.2.tree ms.1 = some act ∧
      act.Head = encode (.minerStateO 5000 o w pe) ∧
      bsGet ms.2.bs act.Head = some (.minerStateO 5000 o w pe) := by
  revert heq
  induction ws generalizing i vmst cfg cfg2 snaps vmstF tr with
  | nil =>
    intro heq
    rw [minerLoop] at heq
    injection heq with h1 h2
    injection h1 with h1
    injection h1 with h1a h1b
    intro ms hms
    rw [← h1b] at hms
    cases hms
  | cons worker wrest ih =>
    intro heq
    simp only [minerLoop] at heq
    split at heq
    · rename_i owner pid hown hpid
      split at heq
      · simp at heq
      · rename_i rval vmst1 tr1 hd1
        split at heq
        · simp at heq
        · rename_i maddr hmaddr
          split at heq
          · simp at heq
          · rename_i vmst2 tr2 hd2
            split at heq
            · simp at heq
            · rename_i mact hmact
              split at heq
              · rename_i _p o w pe hbs
                split at heq
                · simp at heq
                · rename_i cfg3 snaps3 vmst4 tr3 hrec
                  injection heq with h1 h2
                  injection h1 with h1
                  injection h1 with h1a h1b
                  intro ms hms
                  rw [← h1b] at hms
                  rcases List.mem_cons.mp hms with hm | hm
                  · subst hm
                    refine ⟨⟨mact.Code, encode (.minerStateO 5000 o w pe),
                      mact.Nonce, mact.Balance⟩, o, w, pe, ?_, rfl, ?_⟩
                    · exact getActor_setActor_self _ _ _
                    · exact bsGet_head _ _ _
                  · exact ih _ _ _ _ _ _ _ hrec ms hm
              · simp at heq
    · simp at heq

theorem minerLoop_ok_cfg (eng : Engine) (owners pids : List Nat)
    (ws : List Nat) (i : Nat) (vmst : VMState) (cfg cfg2 : GenMinerCfg)
    (snaps : List (Address × VMState)) (vmstF : VMState) (tr : List Nat)
    (heq : minerLoop eng owners pids i ws vmst cfg =
      (.ok (cfg2, snaps), vmstF, tr)) :
    cfg2.Owners = cfg.Owners ∧ cfg2.Workers = cfg.Workers ∧
    cfg2.PeerIDs = cfg.PeerIDs ∧
    cfg2.MinerAddrs = cfg.MinerAddrs ++ snaps.map Prod.fst ∧
    snaps.length = ws.length := by
  revert heq
  induction ws generalizing i vmst cfg cfg2 snaps vmstF tr with
  | nil =>
    intro heq
    rw [minerLoop] at heq
    injection heq with h1 h2
    injection h1 with h1
    injection h1 with h1a h1b
    rw [← h1a, ← h1b]
    simp
  | cons worker wrest ih =>
    intro heq
    simp only [minerLoop] at heq
    split at heq
    · rename_i owner pid hown hpid
      split at heq
      · simp at heq
      · rename_i rval vmst1 tr1 hd1
        split at heq
        · simp at heq
        · rename_i maddr hmaddr
          split at heq
          · simp at heq
          · rename_i vmst2 tr2 hd2
            split at heq
            · simp at heq
            · rename_i mact hmact
              split at heq
              · rename_i _p o w pe hbs
                split at heq
                · simp at heq
                · rename_i cfg3 snaps3 vmst4 tr3 hrec
                  injection heq with h1 h2
                  injection h1 with h1
                  injection h1 with h1a h1b
                  obtain ⟨c1, c2, c3, c4, c5⟩ := ih _ _ _ _ _ _ _ hrec
                  rw [← h1a, ← h1b]
                  refine ⟨c1, c2, c3, ?_, ?_⟩
                  · rw [c4]
                    simp
                  · simp [c5]
              · simp at heq
    · simp at heq

theorem minerLoop_final_state (eng : Engine) (owners pids : List Nat)
    (ws : List Nat) (i : Nat) (vmst : VMState) (cfg cfg2 : GenMinerCfg)
    (snaps : List (Address × VMState)) (vmstF : VMState) (tr : List Nat)
    (heq : minerLoop eng owners pids i ws vmst cfg =
      (.ok (cfg2, snaps), vmstF, tr)) :
    vmstF = (snaps.map Prod.snd).getLastD vmst := by
  revert heq
  induction ws generalizing i vmst cfg cfg2 snaps vmstF tr with
  | nil =>
    intro heq
    rw [minerLoop] at heq
    injection heq with h1 h2
    injection h1 with h1
    injection h1 with h1a h1b
    injection h2 with h2 h3
    rw [← h1b, ← h2]
    rfl
  | cons worker wrest ih =>
    intro heq
    simp only [minerLoop] at heq
    split at heq
    · rename_i owner pid hown hpid
      split at heq
      · simp at heq
      · rename_i rval vmst1 tr1 hd1
        split at heq
        · simp at heq
        · rename_i maddr hmaddr
          split at heq
          · simp at heq
          · rename_i vmst2 tr2 hd2
            split at heq
            · simp at heq
            · rename_i mact hmact
              split at heq
              · rename_i _p o w pe hbs
                split at heq
                · simp at heq
                · rename_i cfg3 snaps3 vmst4 tr3 hrec
                  injection heq with h1 h2
                  injection h1 with h1
                  injection h1 with h1a h1b
                  injection h2 with h2 h3
                  rw [← h1b, ← h2, List.map_cons, List.getLastD_cons]
                  exact ih _ _ _ _ _ _ _ hrec
              · simp at heq
    · simp at heq

theorem SetupStorageMiners_trace (eng : Engine) (vmst : VMState)
    (cfg : GenMinerCfg)
    (res : Except Err (Cid × GenMinerCfg × List (Address × VMState)))
    (vmstF : VMState) (tr : List Nat)
    (heq : SetupStorageMiners eng vmst cfg = (res, vmstF, tr))
    (htr : ∃ ec ∈ tr, ec ≠ 0) :
    ∃ ec diag, ec ≠ 0 ∧
      (res = .error (.wrapCreateMiner (.methodCallFailed ec diag)) ∨
        res = .error (.wrapUpdateStorage (.methodCallFailed ec diag))) := by
  unfold SetupStorageMiners at heq
  split at heq
  · rename_i e vmst1 tr1 hL
    injection heq with h1 h2
    injection h2 with h2 h3
    obtain ⟨ec, diag, hne, hcase⟩ :=
      minerLoop_trace _ _ _ _ _ _ _ _ _ _ hL (h3 ▸ htr)
    rcases hcase with hc | hc
    · injection hc with hc
      exact ⟨ec, diag, hne, Or.inl (by rw [← h1, hc])⟩
    · injection hc with hc
      exact ⟨ec, diag, hne, Or.inr (by rw [← h1, hc])⟩
  · rename_i cfg1 snaps vmst1 tr1 hL
    injection heq with h1 h2
    injection h2 with h2 h3
    obtain ⟨ec, diag, hne, hcase⟩ :=
      minerLoop_trace _ _ _ _ _ _ _ _ _ _ hL (h3 ▸ htr)
    rcases hcase with hc | hc <;> exact absurd hc (by simp)

theorem SetupStorageMiners_noHeaders (eng : Engine) (vmst : VMState)
    (cfg : GenMinerCfg)
    (res : Except Err (Cid × GenMinerCfg × List (Address × VMState)))
    (vmstF : VMState) (tr : List Nat) (heng : engNoHeaders eng)
    (h : noHeaders vmst.bs)
    (heq : SetupStorageMiners eng vmst cfg = (res, vmstF, tr)) :
    noHeaders vmstF.bs := by
  unfold SetupStorageMiners at heq
  split at heq
  · rename_i e vmst1 tr1 hL
    injection heq with h1 h2
    injection h2 with h2 h3
    exact h2 ▸ minerLoop_noHeaders _ _ _ _ _ _ _ _ _ _ heng h hL
  · rename_i cfg1 snaps vmst1 tr1 hL
    injection heq with h1 h2
    injection h2 with h2 h3
    exact h2 ▸ minerLoop_noHeaders _ _ _ _ _ _ _ _ _ _ heng h hL

theorem testEngine_noHeaders : engNoHeaders testEngine := by
  intro vmst msg r vmst2 happ h
  have happ2 : testEngineApply vmst msg = some (r, vmst2) := happ
  unfold testEngineApply at happ2
  cases hp : msg.Params with
  | createMiner o w ss pid =>
    rw [hp] at happ2
    simp only [Option.some.injEq, Prod.mk.injEq] at happ2
    rw [← happ2.2]
    exact noHeaders_putObj _ _ h fun hd he => Obj.noConfusion he
  | updateStorage d =>
    rw [hp] at happ2
    simp only [Option.some.injEq, Prod.mk.injEq] at happ2
    rw [← happ2.2]
    exact h

theorem failEngine_noHeaders : engNoHeaders failEngine := by
  intro vmst msg r vmst2 happ h
  have happ2 : failEngineApply vmst msg = some (r, vmst2) := happ
  unfold failEngineApply at happ2
  simp only [Option.some.injEq, Prod.mk.injEq] at happ2
  rw [← happ2.2]
  exact h

/-! The claims. -/

/-- C10: for every head-CID window w and threshold t ≥ 1, appendCIDsToWindow
returns the most recent entries of w (in order) followed by the new head c,
and its length is min (len w + 1) t — the window never grows beyond the
threshold. -/
theorem appendCIDsToWindow_spec (w : List (List Nat)) (c : List Nat) (t : Nat)
    (ht : 1 ≤ t) :
    appendCIDsToWindow w c t = w.drop (w.length + 1 - t) ++ [c] ∧
    (appendCIDsToWindow w c t).length = min (w.length + 1) t ∧
    (appendCIDsToWindow w c t).length ≤ t := by
  simp only [appendCIDsToWindow]
  by_cases h : (0 : Int) ≤ (w.length : Int) - (t : Int) + 1
  · rw [if_pos h]
    have h2 : ((w.length : Int) - (t : Int) + 1).toNat = w.length + 1 - t := by
      omega
    rw [h2]
    refine ⟨rfl, ?_, ?_⟩ <;>
      simp only [List.length_append, List.length_drop, List.length_singleton] <;>
      omega
  · rw [if_neg h]
    have h2 : w.length + 1 - t = 0 := by omega
    rw [h2, List.drop_zero]
    refine ⟨rfl, ?_, ?_⟩ <;>
      simp only [List.length_append, List.length_singleton] <;>
      omega

/-- Witness for C10 at a concrete window and threshold. -/
theorem appendCIDsToWindow_spec_witness :
    1 ≤ 3 ∧
    (appendCIDsToWindow [[1], [2], [3]] [9] 3 =
        [[1], [2], [3]].drop ([[1], [2], [3]].length + 1 - 3) ++ [[9]] ∧
      (appendCIDsToWindow [[1], [2], [3]] [9] 3).length =
        min ([[1], [2], [3]].length + 1) 3 ∧
      (appendCIDsToWindow [[1], [2], [3]] [9] 3).length ≤ 3) :=
  ⟨by decide, appendCIDsToWindow_spec [[1], [2], [3]] [9] 3 (by decide)⟩

/-- C1: the claim fails on the code — the same balances map, handed to the
construction under the two possible Go-map enumeration orders, yields
different state roots and different genesis block identifiers, because
SetupInitActor assigns sequential IDs in enumeration order.  Both runs
succeed, so the difference is observable in the outputs. -/
theorem genesis_depends_on_map_iteration_order :
    List.Perm enumA enumB ∧
    flushTree (MakeInitialStateTree [] enumA).1 ≠
      flushTree (MakeInitialStateTree [] enumB).1 ∧
    genesisHeaderCid (MakeGenesisBlock nullEngine [] enumA cfgEmpty 7) ≠
      genesisHeaderCid (MakeGenesisBlock nullEngine [] enumB cfgEmpty 7) ∧
    exceptIsOk (MakeGenesisBlock nullEngine [] enumA cfgEmpty 7).1 = true ∧
    exceptIsOk (MakeGenesisBlock nullEngine [] enumB cfgEmpty 7).1 = true := by
  refine ⟨?_, ?_, ?_, ?_, ?_⟩ <;> decide

/-- C2 counterexample: with balances summing to more than the total supply,
construction does not fail — it runs to completion, and the network-reserve
actor is created with a negative balance. -/
theorem overcommit_not_rejected_cex :
    TotalFilecoinSupply < (overEnum.map Prod.snd).sum ∧
    exceptIsOk (MakeGenesisBlock nullEngine [] overEnum cfgEmpty 7).1 = true ∧
    getActor (MakeInitialStateTree [] overEnum).1 NetworkAddress =
      some (accountActor emptyObjCid (-1)) := by
  refine ⟨?_, ?_, ?_⟩ <;> decide

/-- C2 (amended): if the configured balances sum to more than the total
supply, construction proceeds anyway — no accounting error is raised; the
network-reserve actor simply receives the negative balance
(supply − sum), and the whole pipeline still succeeds (here run with no
miners). -/
theorem overcommit_proceeds_with_negative_reserve (bs : Blockstore)
    (actmap : List (Address × Int)) (eng : Engine) (ts : Nat)
    (owners maddrs pids : List Nat)
    (hN : NetworkAddress ∉ actmap.map Prod.fst)
    (hover : TotalFilecoinSupply < (actmap.map Prod.snd).sum) :
    getActor (MakeInitialStateTree bs actmap).1 NetworkAddress =
      some (accountActor emptyObjCid
        (TotalFilecoinSupply - (actmap.map Prod.snd).sum)) ∧
    TotalFilecoinSupply - (actmap.map Prod.snd).sum < 0 ∧
    exceptIsOk
      (MakeGenesisBlock eng bs actmap ⟨owners, [], maddrs, pids⟩ ts).1 =
      true := by
  refine ⟨?_, by omega, ?_⟩
  · simp only [MakeInitialStateTree]
    rw [getActor_setAccountActors_not_mem _ _ _ _ hN,
      getActor_setActor_ne _ _ _ _ (by decide),
      getActor_setActor_self, subAllBalances_eq]
    rfl
  · simp only [MakeGenesisBlock, SetupStorageMiners, minerLoop]
    rfl

/-- Witness for C2's amended theorem at a concrete over-committed input. -/
theorem overcommit_proceeds_with_negative_reserve_witness :
    (NetworkAddress ∉ overEnum.map Prod.fst ∧
      TotalFilecoinSupply < (overEnum.map Prod.snd).sum) ∧
    (getActor (MakeInitialStateTree [] overEnum).1 NetworkAddress =
        some (accountActor emptyObjCid
          (TotalFilecoinSupply - (overEnum.map Prod.snd).sum)) ∧
      TotalFilecoinSupply - (overEnum.map Prod.snd).sum < 0 ∧
      exceptIsOk
        (MakeGenesisBlock nullEngine [] overEnum ⟨[], [], [], []⟩ 7).1 =
        true) :=
  ⟨⟨by decide, by decide⟩,
    overcommit_proceeds_with_negative_reserve [] overEnum nullEngine 7 [] [] []
      (by decide) (by decide)⟩

/-- C6 counterexample: the owner/worker/peer-ID lists of this configuration
have mismatched lengths, yet SetupStorageMiners reports no configuration
error at all — it succeeds (the loop is driven by Workers alone, so the
extra owner is silently ignored). -/
theorem mismatched_lengths_not_rejected_cex :
    cfgMismatch.Owners.length ≠ cfgMismatch.Workers.length ∧
    exceptIsOk
      (SetupStorageMiners nullEngine (initialVM [] [(5, 100)]) cfgMismatch).1 =
      true ∧
    (SetupStorageMiners nullEngine (initialVM [] [(5, 100)]) cfgMismatch).2.2 =
      [] := by
  refine ⟨?_, ?_, ?_⟩ <;> decide

/-- C6 (amended): no length validation is performed.  The loop is driven by
the Workers list: with no workers, construction succeeds untouched for any
(mismatched) Owners and PeerIDs; with a worker but no owner at its index,
the run dies with an index-out-of-range crash, not a reported configuration
error. -/
theorem no_miner_config_length_validation (eng : Engine) (vmst : VMState)
    (owners maddrs pids : List Nat) :
    SetupStorageMiners eng vmst ⟨owners, [], maddrs, pids⟩ =
      (.ok (flushTree vmst.tree, ⟨owners, [], maddrs, pids⟩, []), vmst, []) ∧
    ∀ w wrest, SetupStorageMiners eng vmst ⟨[], w :: wrest, maddrs, pids⟩ =
      (.error .indexOutOfRange, vmst, []) := by
  exact ⟨rfl, fun w wrest => rfl⟩

/-- C8 counterexample: the miner configuration structure is mutated by
construction — the run returns it with the created miner's address appended
to MinerAddrs, so it is no longer equal to the structure passed in. -/
theorem config_not_immutable_cex :
    cfgOneMiner.MinerAddrs = [] ∧
    cfgOut (MakeGenesisBlock testEngine [] [(5, 100)] cfgOneMiner 7) =
      some ⟨cfgOneMiner.Owners, cfgOneMiner.Workers, [1005],
        cfgOneMiner.PeerIDs⟩ ∧
    cfgOut (MakeGenesisBlock testEngine [] [(5, 100)] cfgOneMiner 7) ≠
      some cfgOneMiner := by
  refine ⟨?_, ?_, ?_⟩ <;> decide

/-- C8 (amended): construction leaves the balances enumeration and the
Owners, Workers and PeerIDs fields untouched, but does mutate the miner
configuration: each created miner's address is appended to MinerAddrs (the
source documents MinerAddrs as set by the genesis setup). -/
theorem config_minerAddrs_appended (eng : Engine) (bs : Blockstore)
    (bal : List (Address × Int)) (cfg : GenMinerCfg) (ts : Nat)
    (gb : GenesisBootstrap) (cfg2 : GenMinerCfg) (bs2 : Blockstore)
    (tr : List Nat)
    (heq : MakeGenesisBlock eng bs bal cfg ts = (.ok (gb, cfg2), bs2, tr)) :
    cfg2.Owners = cfg.Owners ∧ cfg2.Workers = cfg.Workers ∧
    cfg2.PeerIDs = cfg.PeerIDs ∧
    ∃ created, cfg2.MinerAddrs = cfg.MinerAddrs ++ created ∧
      created.length = cfg.Workers.length := by
  unfold MakeGenesisBlock at heq
  split at heq
  · simp at heq
  · rename_i stateroot cfg1 snaps vmst1 tr1 hS
    injection heq with h1 h2
    injection h1 with h1
    unfold SetupStorageMiners at hS
    split at hS
    · simp at hS
    · rename_i cfg1b snapsb vmst1b tr1b hL
      injection hS with hs1 hs2
      injection hs1 with hs1
      obtain ⟨c1, c2, c3, c4, c5⟩ := minerLoop_ok_cfg _ _ _ _ _ _ _ _ _ _ _ hL
      have hc : cfg1 = cfg2 := congrArg Prod.snd h1
      have hcb : cfg1b = cfg1 := (congrArg (fun x => x.2.1) hs1 : _)
      rw [← hc, ← hcb]
      refine ⟨c1, c2, c3, snapsb.map Prod.fst, c4, ?_⟩
      rw [List.length_map, c5]

/-- Witness for C8's amended theorem on a concrete successful run. -/
theorem config_minerAddrs_appended_witness :
    (cfgOut (MakeGenesisBlock testEngine [] [(5, 100)] cfgOneMiner 7)).isSome =
      true ∧
    ∀ gb cfg2,
      (MakeGenesisBlock testEngine [] [(5, 100)] cfgOneMiner 7).1 =
        .ok (gb, cfg2) →
      cfg2.Owners = cfgOneMiner.Owners ∧ cfg2.Workers = cfgOneMiner.Workers ∧
      cfg2.PeerIDs = cfgOneMiner.PeerIDs ∧
      ∃ created, cfg2.MinerAddrs = cfgOneMiner.MinerAddrs ++ created ∧
        created.length = cfgOneMiner.Workers.length := by
  refine ⟨by decide, fun gb cfg2 h => ?_⟩
  exact config_minerAddrs_appended testEngine [] [(5, 100)] cfgOneMiner 7 gb
    cfg2 (MakeGenesisBlock testEngine [] [(5, 100)] cfgOneMiner 7).2.1
    (MakeGenesisBlock testEngine [] [(5, 100)] cfgOneMiner 7).2.2
    (by rw [← h])

/-- C3: for a duplicate-free address list, the Init Actor's state body holds
nextID = 100 + count and an address map with exactly one entry per input
address, assigning sequential IDs from the reserved offset 100 in input
order. -/
theorem init_actor_sequential_ids (bs : Blockstore) (addrs : List Address)
    (hnd : addrs.Nodup) :
    ∃ amapcid entries,
      bsGet (SetupInitActor bs addrs).2 (SetupInitActor bs addrs).1.Head =
        some (.initStateO (100 + addrs.length) amapcid) ∧
      bsGet (SetupInitActor bs addrs).2 amapcid = some (.amapO entries) ∧
      (entries.map Prod.fst).Nodup ∧
      entries.length = addrs.length ∧
      ∀ j : Fin addrs.length, (addrs.get j, 100 + (j : Nat)) ∈ entries := by
  have hb : buildAmap 0 addrs [] = addrsWithIds 0 addrs := by
    simpa using buildAmap_eq addrs 0 [] (by simp) hnd
  have hperm : List.Perm (sortByKey (buildAmap 0 addrs [])) (addrsWithIds 0 addrs) := by
    rw [hb]
    exact sortByKey_perm _
  refine ⟨encode (.amapO (sortByKey (buildAmap 0 addrs []))),
    sortByKey (buildAmap 0 addrs []), ?_, ?_, ?_, ?_, ?_⟩
  · simp only [SetupInitActor, putObj]
    exact bsGet_head _ _ _
  · simp only [SetupInitActor, putObj]
    rw [bsGet_ne]
    · exact bsGet_head _ _ _
    · intro hcontra
      rw [encode, encode] at hcontra
      exact absurd (List.head_eq_of_cons_eq hcontra) (by decide)
  · have h1 : List.Perm (List.map Prod.fst (sortByKey (buildAmap 0 addrs [])))
        (List.map Prod.fst (addrsWithIds 0 addrs)) := hperm.map _
    rw [addrsWithIds_map_fst] at h1
    exact (h1.nodup_iff).mpr hnd
  · rw [hperm.length_eq, addrsWithIds_length]
  · intro j
    have := addrsWithIds_mem_get addrs 0 j
    rw [Nat.add_zero 100] at this
    exact hperm.mem_iff.mpr this

/-- Witness for C3 at a concrete duplicate-free address list. -/
theorem init_actor_sequential_ids_witness :
    ([7, 3] : List Address).Nodup ∧
    ∃ amapcid entries,
      bsGet (SetupInitActor [] [7, 3]).2 (SetupInitActor [] [7, 3]).1.Head =
        some (.initStateO (100 + ([7, 3] : List Address).length) amapcid) ∧
      bsGet (SetupInitActor [] [7, 3]).2 amapcid = some (.amapO entries) ∧
      (entries.map Prod.fst).Nodup ∧
      entries.length = ([7, 3] : List Address).length ∧
      ∀ j : Fin ([7, 3] : List Address).length,
        (([7, 3] : List Address).get j, 100 + (j : Nat)) ∈ entries :=
  ⟨by decide, init_actor_sequential_ids [] [7, 3] (by decide)⟩

/-- C4: whenever SetupStorageMiners succeeds, it reports one snapshot per
miner configuration, and in each snapshot — the state as it stands right
after that miner's out-of-band patch, with the create-miner and
update-storage messages applied and flushed — the created miner's actor
record points at a state body whose power field is the fixed bootstrap
value 5000. -/
theorem miner_power_patched (eng : Engine) (vmst : VMState)
    (cfg : GenMinerCfg) (stroot : Cid) (cfg2 : GenMinerCfg)
    (snaps : List (Address × VMState)) (vmstF : VMState) (tr : List Nat)
    (heq : SetupStorageMiners eng vmst cfg =
      (.ok (stroot, cfg2, snaps), vmstF, tr)) :
    snaps.length = cfg.Workers.length ∧
    vmstF = (snaps.map Prod.snd).getLastD vmst ∧
    ∀ ms ∈ snaps, ∃ act o w pe,
      getActor ms.2.tree ms.1 = some act ∧
      act.Head = encode (.minerStateO 5000 o w pe) ∧
      bsGet ms.2.bs act.Head = some (.minerStateO 5000 o w pe) := by
  unfold SetupStorageMiners at heq
  split at heq
  · simp at heq
  · rename_i cfg1 snaps1 vmst1 tr1 hL
    injection heq with h1 h2
    injection h1 with h1
    injection h2 with h2 h3
    have hsn : snaps1 = snaps := congrArg (fun x => x.2.2) h1
    rw [← hsn, ← h2]
    refine ⟨(minerLoop_ok_cfg _ _ _ _ _ _ _ _ _ _ _ hL).2.2.2.2, ?_, ?_⟩
    · exact minerLoop_final_state _ _ _ _ _ _ _ _ _ _ _ hL
    · exact minerLoop_snaps_power _ _ _ _ _ _ _ _ _ _ _ hL

/-- Witness for C4 on a concrete successful run with one miner. -/
theorem miner_power_patched_witness :
    ∃ out,
      (SetupStorageMiners testEngine (initialVM [] [(5, 100)]) cfgOneMiner).1 =
        .ok out ∧
      (out.2.2.length = cfgOneMiner.Workers.length ∧
        (SetupStorageMiners testEngine (initialVM [] [(5, 100)])
            cfgOneMiner).2.1 =
          (out.2.2.map Prod.snd).getLastD (initialVM [] [(5, 100)]) ∧
        ∀ ms ∈ out.2.2, ∃ act o w pe,
          getActor ms.2.tree ms.1 = some act ∧
          act.Head = encode (.minerStateO 5000 o w pe) ∧
          bsGet ms.2.bs act.Head = some (.minerStateO 5000 o w pe)) := by
  cases hE : (SetupStorageMiners testEngine (initialVM [] [(5, 100)])
      cfgOneMiner).1 with
  | error e =>
    have hok : exceptIsOk (SetupStorageMiners testEngine
        (initialVM [] [(5, 100)]) cfgOneMiner).1 = true := by decide
    rw [hE] at hok
    cases hok
  | ok out =>
    refine ⟨out, rfl, ?_⟩
    have heq0 : SetupStorageMiners testEngine (initialVM [] [(5, 100)])
        cfgOneMiner =
        ((SetupStorageMiners testEngine (initialVM [] [(5, 100)])
            cfgOneMiner).1,
          (SetupStorageMiners testEngine (initialVM [] [(5, 100)])
            cfgOneMiner).2.1,
          (SetupStorageMiners testEngine (initialVM [] [(5, 100)])
            cfgOneMiner).2.2) := rfl
    rw [hE] at heq0
    exact miner_power_patched testEngine (initialVM [] [(5, 100)]) cfgOneMiner
      out.1 out.2.1 out.2.2 _ _ heq0

/-- C5: if any message applied through the engine during a run exits with a
non-zero code, construction aborts — the result is an error wrapping the
offending method's context (create-miner or update-storage) with the
engine-supplied diagnostic — and no genesis block header is produced or
persisted. -/
theorem nonzero_exit_aborts (eng : Engine) (bs : Blockstore)
    (bal : List (Address × Int)) (cfg : GenMinerCfg) (ts : Nat)
    (res : Except Err (GenesisBootstrap × GenMinerCfg)) (bs2 : Blockstore)
    (tr : List Nat)
    (heq : MakeGenesisBlock eng bs bal cfg ts = (res, bs2, tr))
    (heng : engNoHeaders eng) (hbs : noHeaders bs)
    (htr : ∃ ec ∈ tr, ec ≠ 0) :
    (∃ ec diag, ec ≠ 0 ∧
      (res = .error
          (.wrapSetupMiners (.wrapCreateMiner (.methodCallFailed ec diag))) ∨
        res = .error
          (.wrapSetupMiners (.wrapUpdateStorage (.methodCallFailed ec diag))))) ∧
    noHeaders bs2 := by
  unfold MakeGenesisBlock at heq
  split at heq
  · rename_i e vmst1 tr1 hS
    injection heq with h1 h2
    injection h2 with h2 h3
    obtain ⟨ec, diag, hne, hcase⟩ :=
      SetupStorageMiners_trace _ _ _ _ _ _ hS (h3 ▸ htr)
    constructor
    · rcases hcase with hc | hc
      · injection hc with hc
        exact ⟨ec, diag, hne, Or.inl (by rw [← h1, hc])⟩
      · injection hc with hc
        exact ⟨ec, diag, hne, Or.inr (by rw [← h1, hc])⟩
    · have hbs1 : noHeaders (initialVM bs bal).bs :=
        noHeaders_MakeInitialStateTree bs bal hbs
      exact h2 ▸ SetupStorageMiners_noHeaders _ _ _ _ _ _ heng hbs1 hS
  · rename_i stateroot cfg1 snaps vmst1 tr1 hS
    injection heq with h1 h2
    injection h2 with h2 h3
    obtain ⟨ec, diag, hne, hcase⟩ :=
      SetupStorageMiners_trace _ _ _ _ _ _ hS (h3 ▸ htr)
    rcases hcase with hc | hc <;> exact absurd hc (by simp)

/-- Witness for C5: with an engine that answers exit code 1, the run's trace
holds a non-zero exit code, the pipeline returns the doubly-wrapped
method-call error, and the blockstore holds no header. -/
theorem nonzero_exit_aborts_witness :
    (engNoHeaders failEngine ∧ noHeaders ([] : Blockstore) ∧
      1 ∈ (MakeGenesisBlock failEngine [] [(5, 100)] cfgOneMiner 7).2.2 ∧
      (1 : Nat) ≠ 0) ∧
    ((∃ ec diag, ec ≠ 0 ∧
      ((MakeGenesisBlock failEngine [] [(5, 100)] cfgOneMiner 7).1 = .error
          (.wrapSetupMiners (.wrapCreateMiner (.methodCallFailed ec diag))) ∨
        (MakeGenesisBlock failEngine [] [(5, 100)] cfgOneMiner 7).1 = .error
          (.wrapSetupMiners (.wrapUpdateStorage (.methodCallFailed ec diag))))) ∧
    noHeaders (MakeGenesisBlock failEngine [] [(5, 100)] cfgOneMiner 7).2.1) :=
  ⟨⟨failEngine_noHeaders, noHeaders_nil, by decide, by decide⟩,
    nonzero_exit_aborts failEngine [] [(5, 100)] cfgOneMiner 7 _ _ _ rfl
      failEngine_noHeaders noHeaders_nil ⟨1, by decide, by decide⟩⟩

theorem balanceAt_eq (t : StateTree) (a : Address) (act : Actor)
    (h : getActor t a = some act) : balanceAt t a = act.Balance := by
  simp [balanceAt, h]

theorem sum_balances_eq (l : List (Address × Int)) (f : Address → Int)
    (h : ∀ p ∈ l, f p.1 = p.2) :
    ((l.map Prod.fst).map f).sum = (l.map Prod.snd).sum := by
  induction l with
  | nil => rfl
  | cons p rest ih =>
    simp only [List.map_cons, List.sum_cons]
    rw [h p (List.mem_cons_self p rest),
      ih fun q hq => h q (List.mem_cons_of_mem _ hq)]

/-- C7: for every constructed initial state, the balances of the configured
account actors, the network-reserve actor's balance, and the burnt-funds
actor's balance (zero) sum to exactly the fixed total supply constant. -/
theorem genesis_supply_conserved (bs : Blockstore)
    (actmap : List (Address × Int)) (hnd : (actmap.map Prod.fst).Nodup)
    (hres : ∀ a ∈ actmap.map Prod.fst, a ≠ InitActorAddress ∧
      a ≠ NetworkAddress ∧ a ≠ StorageMarketAddress ∧ a ≠ BurntFundsAddress) :
    ((actmap.map Prod.fst).map
        (balanceAt (MakeInitialStateTree bs actmap).1)).sum +
      balanceAt (MakeInitialStateTree bs actmap).1 NetworkAddress +
      balanceAt (MakeInitialStateTree bs actmap).1 BurntFundsAddress =
      TotalFilecoinSupply := by
  have hNn : NetworkAddress ∉ actmap.map Prod.fst :=
    fun hm => (hres _ hm).2.1 rfl
  have hBn : BurntFundsAddress ∉ actmap.map Prod.fst :=
    fun hm => (hres _ hm).2.2.2 rfl
  have hnet : getActor (MakeInitialStateTree bs actmap).1 NetworkAddress =
      some (accountActor (putObj bs Obj.emptyObject).1
        (TotalFilecoinSupply - (actmap.map Prod.snd).sum)) := by
    simp only [MakeInitialStateTree]
    rw [getActor_setAccountActors_not_mem _ _ _ _ hNn,
      getActor_setActor_ne _ _ _ _ (by decide),
      getActor_setActor_self, subAllBalances_eq]
  have hburnt : getActor (MakeInitialStateTree bs actmap).1 BurntFundsAddress =
      some (accountActor (putObj bs Obj.emptyObject).1 0) := by
    simp only [MakeInitialStateTree]
    rw [getActor_setAccountActors_not_mem _ _ _ _ hBn, getActor_setActor_self]
  have hacc : ∀ p ∈ actmap,
      getActor (MakeInitialStateTree bs actmap).1 p.1 =
        some (accountActor (putObj bs Obj.emptyObject).1 p.2) := by
    intro p hp
    simp only [MakeInitialStateTree]
    exact getActor_setAccountActors_mem _ _ _ hnd p hp
  rw [balanceAt_eq _ _ _ hnet, balanceAt_eq _ _ _ hburnt,
    sum_balances_eq actmap _ fun p hp => balanceAt_eq _ _ _ (hacc p hp)]
  simp only [accountActor]
  omega

/-- Witness for C7 at a concrete two-account configuration. -/
theorem genesis_supply_conserved_witness :
    (([(5, 100), (6, 200)].map Prod.fst).Nodup ∧
      ∀ a ∈ ([(5, 100), (6, 200)] : List (Address × Int)).map Prod.fst,
        a ≠ InitActorAddress ∧ a ≠ NetworkAddress ∧
        a ≠ StorageMarketAddress ∧ a ≠ BurntFundsAddress) ∧
    ((([(5, 100), (6, 200)] : List (Address × Int)).map Prod.fst).map
        (balanceAt (MakeInitialStateTree [] [(5, 100), (6, 200)]).1)).sum +
      balanceAt (MakeInitialStateTree [] [(5, 100), (6, 200)]).1
        NetworkAddress +
      balanceAt (MakeInitialStateTree [] [(5, 100), (6, 200)]).1
        BurntFundsAddress = TotalFilecoinSupply :=
  ⟨⟨by decide, by decide⟩,
    genesis_supply_conserved [] [(5, 100), (6, 200)] (by decide) (by decide)⟩

/-- C9: a successful construction returns a genesis header with height 0, no
parents, parent weight 0, the caller's timestamp, the init actor as miner,
message and message-receipt roots referencing empty message lists, and the
state root flushed by the miner bootstrap; the header is persisted to the
blockstore and is the only header object there — it is created exactly
once. -/
theorem genesis_block_assembled (eng : Engine) (bs : Blockstore)
    (bal : List (Address × Int)) (cfg : GenMinerCfg) (ts : Nat)
    (gb : GenesisBootstrap) (cfg2 : GenMinerCfg) (bs2 : Blockstore)
    (tr : List Nat)
    (heq : MakeGenesisBlock eng bs bal cfg ts = (.ok (gb, cfg2), bs2, tr))
    (heng : engNoHeaders eng) (hbs : noHeaders bs) :
    gb.Genesis.Height = 0 ∧ gb.Genesis.Parents = [] ∧
    gb.Genesis.ParentWeight = 0 ∧ gb.Genesis.Timestamp = ts ∧
    gb.Genesis.Miner = InitActorAddress ∧
    gb.Genesis.MessageReceipts = encode (.sharrayO []) ∧
    gb.Genesis.Messages =
      encode (.msgMetaO (encode (.sharrayO [])) (encode (.sharrayO []))) ∧
    bsGet bs2 (encode (.headerO gb.Genesis)) = some (.headerO gb.Genesis) ∧
    (∀ c hd, (c, Obj.headerO hd) ∈ bs2 → hd = gb.Genesis) ∧
    (∀ stroot cfg3 snaps vmst3 tr3,
      SetupStorageMiners eng (initialVM bs bal) cfg =
        (.ok (stroot, cfg3, snaps), vmst3, tr3) →
      gb.Genesis.StateRoot = stroot) := by
  unfold MakeGenesisBlock at heq
  split at heq
  · simp at heq
  · rename_i stateroot cfg1 snaps vmst1 tr1 hS
    injection heq with h1 h2
    injection h2 with h2 h3
    injection h1 with h1
    have hgb : gb = ⟨⟨InitActorAddress, [genesisTicket], electionProofBytes,
        [], 0, 0, stateroot,
        encode (.msgMetaO (encode (.sharrayO [])) (encode (.sharrayO []))),
        encode (.sharrayO []), blsAggregatePlaceholder, blockSigPlaceholder,
        ts⟩⟩ := (congrArg Prod.fst h1).symm
    have hnoH1 : noHeaders vmst1.bs := by
      refine SetupStorageMiners_noHeaders _ _ _ _ _ _ heng ?_ hS
      exact noHeaders_MakeInitialStateTree bs bal hbs
    subst hgb
    refine ⟨rfl, rfl, rfl, rfl, rfl, rfl, rfl, ?_, ?_, ?_⟩
    · rw [← h2]
      exact bsGet_head _ _ _
    · rw [← h2]
      intro c hd hmem
      rcases List.mem_cons.mp hmem with he | hmem
      · exact Obj.headerO.inj (congrArg Prod.snd he)
      · rcases List.mem_cons.mp hmem with he | hmem
        · exact Obj.noConfusion (congrArg Prod.snd he)
        · rcases List.mem_cons.mp hmem with he | hmem
          · exact Obj.noConfusion (congrArg Prod.snd he)
          · exact absurd hmem (hnoH1 c hd)
    · intro stroot cfg3 snaps3 vmst3 tr3 heq2
      rw [hS] at heq2
      injection heq2 with hq1 hq2
      injection hq1 with hq1
      exact (congrArg (fun x => x.1) hq1 : _)

/-- Witness for C9 on a concrete successful one-miner run. -/
theorem genesis_block_assembled_witness :
    (engNoHeaders testEngine ∧ noHeaders ([] : Blockstore) ∧
      exceptIsOk (MakeGenesisBlock testEngine [] [(5, 100)] cfgOneMiner 7).1 =
        true) ∧
    ∀ p, (MakeGenesisBlock testEngine [] [(5, 100)] cfgOneMiner 7).1 =
        .ok p →
      p.1.Genesis.Height = 0 ∧ p.1.Genesis.Parents = [] ∧
      p.1.Genesis.ParentWeight = 0 ∧ p.1.Genesis.Timestamp = 7 ∧
      p.1.Genesis.Miner = InitActorAddress ∧
      p.1.Genesis.MessageReceipts = encode (.sharrayO []) ∧
      p.1.Genesis.Messages =
        encode (.msgMetaO (encode (.sharrayO [])) (encode (.sharrayO []))) ∧
      bsGet (MakeGenesisBlock testEngine [] [(5, 100)] cfgOneMiner 7).2.1
          (encode (.headerO p.1.Genesis)) = some (.headerO p.1.Genesis) ∧
      (∀ c hd,
        (c, Obj.headerO hd) ∈
          (MakeGenesisBlock testEngine [] [(5, 100)] cfgOneMiner 7).2.1 →
        hd = p.1.Genesis) ∧
      (∀ stroot cfg3 snaps vmst3 tr3,
        SetupStorageMiners testEngine (initialVM [] [(5, 100)]) cfgOneMiner =
          (.ok (stroot, cfg3, snaps), vmst3, tr3) →
        p.1.Genesis.StateRoot = stroot) := by
  refine ⟨⟨testEngine_noHeaders, noHeaders_nil, by decide⟩, fun p hE => ?_⟩
  have heq : MakeGenesisBlock testEngine [] [(5, 100)] cfgOneMiner 7 =
      ((MakeGenesisBlock testEngine [] [(5, 100)] cfgOneMiner 7).1,
        (MakeGenesisBlock testEngine [] [(5, 100)] cfgOneMiner 7).2.1,
        (MakeGenesisBlock testEngine [] [(5, 100)] cfgOneMiner 7).2.2) := rfl
  rw [hE] at heq
  exact genesis_block_assembled testEngine [] [(5, 100)] cfgOneMiner 7 p.1 p.2
    _ _ heq testEngine_noHeaders noHeaders_nil

end Lotus
